import Mathlib

/-!
Verification of the mailscout library (src/mailscout/scout.py) against its
natural-language specification.

Modelling conventions (shallow embedding):
* Python strings are modelled as `List Char` (`Str`); `String.data` bridges
  Lean string literals to the model.
* The network (DNS resolution via `dns.resolver.resolve` plus the whole SMTP
  dialogue `SMTP(...)/ehlo/mail/rcpt`) is an external collaborator; it is
  modelled as an oracle `ProbeEnv`: `resolveMx` returns the first MX host for a
  domain or an error (any exception raised while resolving / indexing
  `records[0]`), and `rcpt` returns the final RCPT TO reply code or an error
  (any exception raised while connecting or during the dialogue).
* The random local-part drawn in `check_email_catchall` (ten characters of
  `random.choices`) is part of the oracle (`randChars`): one fixed draw per run.
* Python exceptions are modelled with `Except Unit`; a function that can raise
  returns `Except Unit α`.
-/

/-- Python strings as lists of characters. -/
abbrev Str := List Char

/-- Bridge from Lean string literals to the `Str` model. -/
def toS (s : String) : Str := s.data

/-- Python `str.split(sep)` for a one-character separator: splits at every
occurrence of the separator, keeping empty pieces (`"".split('@') == [""]`,
`"@".split('@') == ["", ""]`). -/
def splitOnChar (sep : Char) : Str → List Str
  | [] => [[]]
  | c :: cs =>
    if c = sep then [] :: splitOnChar sep cs
    else
      match splitOnChar sep cs with
      | [] => [[c]]
      | p :: ps => (c :: p) :: ps

/-- Oracle for the external network collaborators used by `check_smtp` and for
the random draw used by `check_email_catchall`. -/
structure ProbeEnv where
  resolveMx : Str → Except Unit Str
  rcpt : Str → Str → Except Unit Nat
  randChars : Str

/-- The `Scout` object's construction-time configuration
(`Scout.__init__`, scout.py lines 14-41). -/
structure Scout where
  check_variants : Bool
  check_prefixes : Bool
  check_catchall : Bool
  normalize : Bool
  num_threads : Nat
  num_bulk_threads : Nat
  smtp_timeout : Nat

/-- The defaults of `Scout.__init__`. -/
def defaultScout : Scout := ⟨true, true, true, true, 5, 1, 2⟩

/-- `local-part` extraction as done by `email.split('@')[1]` (scout.py line 56),
meaningful when the split has at least two pieces. -/
def emailDomain (email : Str) : Str := (splitOnChar '@' email).getD 1 []

/-- The value computed inside `check_smtp`'s `try` block (scout.py lines 57-69):
resolve the MX host of the domain, run the dialogue, compare the RCPT TO reply
code to 250; any oracle error is caught by `except Exception` and becomes
`false`. -/
def check_smtp_val (env : ProbeEnv) (email : Str) : Bool :=
  match env.resolveMx (emailDomain email) with
  | .error _ => false
  | .ok mx_record =>
    match env.rcpt mx_record email with
    | .error _ => false
    | .ok code => code == 250

/-- `Scout.check_smtp` (scout.py lines 45-69).  The domain extraction
`email.split('@')[1]` happens before the `try` block: when the address has no
`'@'` the `IndexError` propagates (modelled as `Except.error`); otherwise the
`try` block yields a boolean and never raises. -/
def Scout.check_smtp (_sc : Scout) (env : ProbeEnv) (email : Str) : Except Unit Bool :=
  match splitOnChar '@' email with
  | _ :: d :: _ =>
    .ok (match env.resolveMx d with
      | .error _ => false
      | .ok mx_record =>
        match env.rcpt mx_record email with
        | .error _ => false
        | .ok code => code == 250)
  | _ => .error ()

/-- A probe oracle whose server accepts every RCPT TO with code 250. -/
def envAccept : ProbeEnv :=
  ⟨fun _ => .ok (toS "mx.example.com"), fun _ _ => .ok 250, toS "q7b2n9x4kz"⟩

/-- A probe oracle for which every DNS resolution raises. -/
def envNoMx : ProbeEnv :=
  ⟨fun _ => .error (), fun _ _ => .error (), toS "q7b2n9x4kz"⟩

theorem splitOnChar_ne_nil (sep : Char) (l : Str) : splitOnChar sep l ≠ [] := by
  induction l with
  | nil => simp [splitOnChar]
  | cons c cs ih =>
    simp only [splitOnChar]
    split
    · simp
    · cases h : splitOnChar sep cs with
      | nil => simp
      | cons p ps => simp

theorem splitOnChar_eq_singleton_of_not_mem {sep : Char} {l : Str}
    (h : sep ∉ l) : splitOnChar sep l = [l] := by
  induction l with
  | nil => rfl
  | cons c cs ih =>
    simp only [List.mem_cons, not_or] at h
    have hc : ¬ c = sep := fun hcc => h.1 hcc.symm
    simp only [splitOnChar, if_neg hc, ih h.2]

theorem two_le_length_splitOnChar_of_mem {sep : Char} {l : Str}
    (h : sep ∈ l) : 2 ≤ (splitOnChar sep l).length := by
  induction l with
  | nil => cases h
  | cons c cs ih =>
    by_cases hc : c = sep
    · subst hc
      have h1 : 0 < (splitOnChar c cs).length :=
        List.length_pos.mpr (splitOnChar_ne_nil c cs)
      simp [splitOnChar]
      omega
    · have hmem : sep ∈ cs := by
        rcases List.mem_cons.mp h with h1 | h1
        · exact absurd h1.symm hc
        · exact h1
      have h2 := ih hmem
      simp only [splitOnChar, if_neg (fun he => hc (by simpa using he))]
      cases hsp : splitOnChar sep cs with
      | nil => exact absurd hsp (splitOnChar_ne_nil sep cs)
      | cons p ps =>
        rw [hsp] at h2
        simpa using h2

/-- When the address contains an `'@'`, the split has shape `_ :: d :: _` with
`d = emailDomain email`, so `check_smtp` lands in the `try` block and returns
`.ok (check_smtp_val env email)`. -/
theorem check_smtp_eq_ok_val (sc : Scout) (env : ProbeEnv) {email : Str}
    (h : '@' ∈ email) :
    sc.check_smtp env email = .ok (check_smtp_val env email) := by
  have h2 := two_le_length_splitOnChar_of_mem h
  unfold Scout.check_smtp check_smtp_val emailDomain
  cases hsp : splitOnChar '@' email with
  | nil => exact absurd hsp (splitOnChar_ne_nil '@' email)
  | cons a rest =>
    cases rest with
    | nil => rw [hsp] at h2; simp at h2
    | cons d rest2 => simp

/-- C2: for an address containing `'@'`, `check_smtp` returns a boolean without
raising, and that boolean is `true` iff DNS resolution and the SMTP dialogue
both succeed and the RCPT TO reply code is exactly 250; every oracle failure is
caught and yields `false`. -/
theorem check_smtp_true_iff_rcpt_250 (sc : Scout) (env : ProbeEnv) (email : Str)
    (h : '@' ∈ email) :
    sc.check_smtp env email = .ok (check_smtp_val env email) ∧
    (check_smtp_val env email = true ↔
      ∃ mx_record code, env.resolveMx (emailDomain email) = .ok mx_record ∧
        env.rcpt mx_record email = .ok code ∧ code = 250) := by
  refine ⟨check_smtp_eq_ok_val sc env h, ?_⟩
  unfold check_smtp_val
  cases hr : env.resolveMx (emailDomain email) with
  | error e => simp [hr]
  | ok mx_record =>
    cases hc : env.rcpt mx_record email with
    | error e => simp [hr, hc]
    | ok code =>
      simp only [hr, hc, beq_iff_eq]
      constructor
      · intro hcode
        exact ⟨mx_record, code, rfl, hc, hcode⟩
      · rintro ⟨mx2, code2, hmx2, hc2, h250⟩
        injection hmx2 with hmx2
        subst hmx2
        rw [hc] at hc2
        injection hc2 with hc2
        subst hc2
        exact h250

/-- Witness for `check_smtp_true_iff_rcpt_250` at a concrete accepting oracle. -/
theorem check_smtp_true_iff_rcpt_250_witness :
    '@' ∈ toS "jane@example.com" ∧
    (defaultScout.check_smtp envAccept (toS "jane@example.com") =
        .ok (check_smtp_val envAccept (toS "jane@example.com")) ∧
    (check_smtp_val envAccept (toS "jane@example.com") = true ↔
      ∃ mx_record code,
        envAccept.resolveMx (emailDomain (toS "jane@example.com")) = .ok mx_record ∧
        envAccept.rcpt mx_record (toS "jane@example.com") = .ok code ∧ code = 250)) :=
  ⟨by decide, check_smtp_true_iff_rcpt_250 defaultScout envAccept _ (by decide)⟩

/-- C10: `check_smtp` is total exactly on addresses containing `'@'`: with an
`'@'` it returns `.ok` of a boolean, without one the `IndexError` from
`email.split('@')[1]` escapes the function (the split happens before the
`try` block). -/
theorem check_smtp_total_iff_at_sign (sc : Scout) (env : ProbeEnv) (email : Str) :
    ('@' ∈ email → sc.check_smtp env email = .ok (check_smtp_val env email)) ∧
    ('@' ∉ email → sc.check_smtp env email = .error ()) := by
  constructor
  · intro h
    exact check_smtp_eq_ok_val sc env h
  · intro h
    unfold Scout.check_smtp
    rw [splitOnChar_eq_singleton_of_not_mem h]

/-- Witness for `check_smtp_total_iff_at_sign`: both branches at concrete
inputs. -/
theorem check_smtp_total_iff_at_sign_witness :
    defaultScout.check_smtp envAccept (toS "jane@b.co") =
      .ok (check_smtp_val envAccept (toS "jane@b.co")) ∧
    defaultScout.check_smtp envAccept (toS "janebco") = .error () :=
  ⟨(check_smtp_total_iff_at_sign defaultScout envAccept (toS "jane@b.co")).1 (by decide),
   (check_smtp_total_iff_at_sign defaultScout envAccept (toS "janebco")).2 (by decide)⟩

/-!
## Name normalizer (`Scout.normalize_name`, scout.py lines 90-118)

The normalizer composes external collaborators: Python's `str.upper`/`str.lower`
builtins, the `unidecode` transliteration library, and
`unicodedata.normalize('NFKD', ·)`.  All four are outside this repository; they
are modelled as an oracle `TransEnv` (see §1 of the spec: the transliteration
utility is an external collaborator with contract "transliterate(name) -> ASCII
string lowercase, alphanumeric only").  The two in-repository steps — the
`encode('ascii','ignore')` filter and the `[^a-zA-Z0-9]` regex strip — are
modelled concretely.
-/

/-- Character class of the regex `[a-z]` / `[0-9]` ranges (lowercase
alphanumeric ASCII), by code point. -/
def isLowerAlnum (c : Char) : Bool :=
  (97 ≤ c.toNat && c.toNat ≤ 122) || (48 ≤ c.toNat && c.toNat ≤ 57)

/-- ASCII code points, as kept by `encode('ascii', 'ignore')`. -/
def isAsciiChar (c : Char) : Bool := c.toNat ≤ 127

/-- Character class of the regex `[a-zA-Z0-9]` (scout.py line 116). -/
def isAlnumAscii (c : Char) : Bool :=
  isLowerAlnum c || (65 ≤ c.toNat && c.toNat ≤ 90)

/-- `normalized.encode('ascii', 'ignore').decode('ascii')`: drop every
non-ASCII character (scout.py line 113). -/
def asciiFilter (s : Str) : Str := s.filter isAsciiChar

/-- `re.sub(r'[^a-zA-Z0-9]', '', ·)`: drop every character that is not an
ASCII letter or digit (scout.py line 116). -/
def regexStrip (s : Str) : Str := s.filter isAlnumAscii

/-- Oracle for the external collaborators of `normalize_name`: Python's
`str.upper` and `str.lower` builtins, the `unidecode` transliteration library,
and NFKD normalization from `unicodedata`. -/
structure TransEnv where
  upperF : Str → Str
  lowerF : Str → Str
  uni : Str → Str
  nfkd : Str → Str

/-- `Scout.normalize_name` (scout.py lines 90-118):
`name.upper().lower()`, then `unidecode`, then NFKD, then the ASCII filter,
then the alphanumeric regex strip. -/
def normalize_name (tenv : TransEnv) (name : Str) : Str :=
  regexStrip (asciiFilter (tenv.nfkd (tenv.uni (tenv.lowerF (tenv.upperF name)))))

/-- A concrete transliteration oracle satisfying the spec's contract for the
external collaborator ("ASCII string lowercase, alphanumeric only"), used to
instantiate witnesses and counterexamples.  On the ASCII-alphanumeric inputs
appearing in those concrete statements it agrees with the real libraries,
which are identity there. -/
def tenvW : TransEnv :=
  ⟨id, id, fun s => s.filter isLowerAlnum, id⟩

theorem isAsciiChar_of_isLowerAlnum {c : Char} (h : isLowerAlnum c = true) :
    isAsciiChar c = true := by
  simp only [isLowerAlnum, Bool.or_eq_true, Bool.and_eq_true, decide_eq_true_eq] at h
  simp only [isAsciiChar, decide_eq_true_eq]
  omega

theorem isAlnumAscii_of_isLowerAlnum {c : Char} (h : isLowerAlnum c = true) :
    isAlnumAscii c = true := by
  simp [isAlnumAscii, h]

theorem filter_eq_self_of_all {p : Char → Bool} {s : Str}
    (h : ∀ c ∈ s, p c = true) : s.filter p = s :=
  List.filter_eq_self.mpr h

/-- On a string whose characters all satisfy the transliteration contract's
output class, the two in-repository filters are the identity. -/
theorem filters_id_of_lower_alnum {s : Str} (h : ∀ c ∈ s, isLowerAlnum c = true) :
    regexStrip (asciiFilter s) = s := by
  unfold regexStrip asciiFilter
  rw [filter_eq_self_of_all (fun c hc => isAsciiChar_of_isLowerAlnum (h c hc)),
      filter_eq_self_of_all (fun c hc => isAlnumAscii_of_isLowerAlnum (h c hc))]

/-- C9: `normalize_name` is idempotent, for every oracle of external
collaborators that satisfies their documented contracts:
the transliteration returns lowercase-alphanumeric ASCII (spec §1) and is the
identity on strings already in that class; Python's `upper` followed by
`lower` is the identity on lowercase-alphanumeric ASCII; NFKD is the identity
on ASCII. -/
theorem normalize_name_idempotent (tenv : TransEnv)
    (hUni : ∀ s, ∀ c ∈ tenv.uni s, isLowerAlnum c = true)
    (hUniId : ∀ s, (∀ c ∈ s, isLowerAlnum c = true) → tenv.uni s = s)
    (hCase : ∀ s, (∀ c ∈ s, isLowerAlnum c = true) → tenv.lowerF (tenv.upperF s) = s)
    (hNfkd : ∀ s, (∀ c ∈ s, isAsciiChar c = true) → tenv.nfkd s = s)
    (x : Str) :
    normalize_name tenv (normalize_name tenv x) = normalize_name tenv x := by
  have key : ∀ y : Str, normalize_name tenv y = tenv.uni (tenv.lowerF (tenv.upperF y)) := by
    intro y
    unfold normalize_name
    rw [hNfkd _ (fun c hc => isAsciiChar_of_isLowerAlnum (hUni _ c hc)),
        filters_id_of_lower_alnum (hUni _)]
  have hclass : ∀ c ∈ normalize_name tenv x, isLowerAlnum c = true := by
    rw [key]; exact hUni _
  rw [key (normalize_name tenv x), hCase _ hclass, hUniId _ hclass]

/-- Witness for `normalize_name_idempotent` at the concrete oracle `tenvW` and
the spec's example input. -/
theorem normalize_name_idempotent_witness :
    normalize_name tenvW (normalize_name tenvW (toS "Francois")) =
      normalize_name tenvW (toS "Francois") :=
  normalize_name_idempotent tenvW
    (fun _ _ hc => (List.mem_filter.mp hc).2)
    (fun _ hs => filter_eq_self_of_all hs)
    (fun _ _ => rfl)
    (fun _ _ => rfl)
    (toS "Francois")

/-!
## Candidate generators (`generate_prefixes`, `generate_email_variants`,
`split_list_data`; scout.py lines 121-190 and 339-343)
-/

/-- Python `set.add` modelled on lists: duplicates dropped, insertion order
kept.  Iteration order of a Python set is implementation-defined; this model
fixes insertion order, and no claim below depends on the resulting order. -/
def pySetAdd (l : List Str) (x : Str) : List Str :=
  if x ∈ l then l else l ++ [x]

/-- Every element of a list paired with the remaining elements, order kept. -/
def picks {α : Type} : List α → List (α × List α)
  | [] => []
  | x :: xs => (x, xs) :: (picks xs).map (fun p => (p.1, x :: p.2))

/-- `itertools.permutations(l, r)`: all length-`r` permutations of the
elements of `l` (elements distinguished by position). -/
def permsR {α : Type} (l : List α) : Nat → List (List α)
  | 0 => [[]]
  | r + 1 => (picks l).flatMap (fun p => (permsR p.2 r).map (p.1 :: ·))

/-- The outer permutation loop of `generate_email_variants` (scout.py line
179): `r` runs over `range(1, len(names) + 1)`. -/
def allPerms (names : List Str) : List (List Str) :=
  (List.range names.length).flatMap (fun r => permsR names (r + 1))

/-- Python `'.'.join(parts)`. -/
def dotJoin (parts : List Str) : Str := List.intercalate [('.' : Char)] parts

/-- Body of the permutation loop (scout.py lines 182-183): add the
concatenation and the dot-join of one combination to the variant set. -/
def addPermJoins (acc : List Str) (p : List Str) : List Str :=
  pySetAdd (pySetAdd acc p.flatten) (dotJoin p)

/-- The individual-names loop (scout.py lines 186-188): add each name and its
first character.  `name[0]` raises `IndexError` when the name is empty; the
`variants.add(name)` of that iteration has already happened, but the whole
call fails. -/
def addNameInitials (acc : List Str) : List Str → Except Unit (List Str)
  | [] => .ok acc
  | n :: ns =>
    match n, pySetAdd acc n with
    | [], _ => .error ()
    | c :: _, acc1 => addNameInitials (pySetAdd acc1 [c]) ns

/-- `Scout.generate_email_variants` (scout.py lines 155-190).  The `assert`
on line 172 is a type check that always holds in this typed model. -/
def Scout.generate_email_variants (_sc : Scout) (tenv : TransEnv) (names : List Str)
    (domain : Str) (normalize : Bool) : Except Unit (List Str) :=
  let names2 := if normalize then names.map (normalize_name tenv) else names
  match addNameInitials ((allPerms names2).foldl addPermJoins []) names2 with
  | .error e => .error e
  | .ok variants => .ok (variants.map (fun v => v ++ '@' :: domain))

/-- The fixed catalogue of common role prefixes (scout.py lines 133-150). -/
def common_prefixes : List Str :=
  [toS "info", toS "contact", toS "sales", toS "support", toS "admin",
   toS "service", toS "team", toS "hello", toS "marketing", toS "hr",
   toS "office", toS "accounts", toS "billing", toS "careers", toS "jobs",
   toS "press", toS "help", toS "enquiries", toS "management", toS "staff",
   toS "webmaster", toS "administrator", toS "customer", toS "tech",
   toS "finance", toS "legal", toS "compliance", toS "operations", toS "it",
   toS "network", toS "development", toS "research", toS "design", toS "engineering",
   toS "production", toS "purchasing", toS "logistics", toS "training",
   toS "ceo", toS "director", toS "manager",
   toS "executive", toS "agent", toS "representative", toS "partner",
   toS "blog", toS "forum", toS "news", toS "updates", toS "events",
   toS "community", toS "shop", toS "store", toS "feedback",
   toS "media", toS "resource", toS "resources",
   toS "api", toS "dev", toS "developer", toS "status", toS "security"]

/-- `Scout.generate_prefixes` (scout.py lines 121-153): the custom list is
used whenever it is not `None` (an explicit empty list counts as custom). -/
def Scout.generate_prefixes (_sc : Scout) (domain : Str)
    (custom_prefixes : Option (List Str)) : List Str :=
  (match custom_prefixes with
   | some ps => ps
   | none => common_prefixes).map (fun p => p ++ '@' :: domain)

/-- Python `s.split(" ")`. -/
def pySplitSpace (s : Str) : List Str := splitOnChar ' ' s

/-- `Scout.split_list_data` (scout.py lines 339-343): split every entry at
spaces and concatenate. -/
def split_list_data (target : List Str) : List Str :=
  target.flatMap pySplitSpace

/-! ### Counting and distinctness lemmas for the variant generator -/

theorem pySetAdd_length_le (l : List Str) (x : Str) :
    (pySetAdd l x).length ≤ l.length + 1 := by
  unfold pySetAdd
  split <;> simp

theorem pySetAdd_nodup {l : List Str} (h : l.Nodup) (x : Str) :
    (pySetAdd l x).Nodup := by
  by_cases hx : x ∈ l
  · simpa [pySetAdd, hx] using h
  · simp [pySetAdd, hx, List.nodup_append, h]

theorem addPermJoins_length_le (acc : List Str) (p : List Str) :
    (addPermJoins acc p).length ≤ acc.length + 2 := by
  unfold addPermJoins
  have h1 := pySetAdd_length_le (pySetAdd acc p.flatten) (dotJoin p)
  have h2 := pySetAdd_length_le acc p.flatten
  omega

theorem addPermJoins_nodup {acc : List Str} (h : acc.Nodup) (p : List Str) :
    (addPermJoins acc p).Nodup := by
  unfold addPermJoins
  exact pySetAdd_nodup (pySetAdd_nodup h _) _

theorem foldl_addPermJoins_length_le (ps : List (List Str)) :
    ∀ acc : List Str, ((ps.foldl addPermJoins acc).length ≤ acc.length + 2 * ps.length) := by
  induction ps with
  | nil => intro acc; simp
  | cons p ps ih =>
    intro acc
    have h1 := ih (addPermJoins acc p)
    have h2 := addPermJoins_length_le acc p
    simp only [List.foldl_cons, List.length_cons]
    omega

theorem foldl_addPermJoins_nodup (ps : List (List Str)) :
    ∀ {acc : List Str}, acc.Nodup → (ps.foldl addPermJoins acc).Nodup := by
  induction ps with
  | nil => intro acc h; simpa using h
  | cons p ps ih =>
    intro acc h
    simp only [List.foldl_cons]
    exact ih (addPermJoins_nodup h p)

theorem addNameInitials_length_le {ns : List Str} :
    ∀ {acc out : List Str}, addNameInitials acc ns = .ok out →
      out.length ≤ acc.length + 2 * ns.length := by
  induction ns with
  | nil =>
    intro acc out h
    injection h with h
    subst h
    simp
  | cons n ns ih =>
    intro acc out h
    cases n with
    | nil => simp [addNameInitials] at h
    | cons c cs =>
      simp only [addNameInitials] at h
      have h1 := ih h
      have h2 := pySetAdd_length_le (pySetAdd acc (c :: cs)) [c]
      have h3 := pySetAdd_length_le acc (c :: cs)
      simp only [List.length_cons]
      omega

theorem addNameInitials_nodup {ns : List Str} :
    ∀ {acc out : List Str}, addNameInitials acc ns = .ok out → acc.Nodup → out.Nodup := by
  induction ns with
  | nil =>
    intro acc out h hn
    injection h with h
    subst h
    exact hn
  | cons n ns ih =>
    intro acc out h hn
    cases n with
    | nil => simp [addNameInitials] at h
    | cons c cs =>
      simp only [addNameInitials] at h
      exact ih h (pySetAdd_nodup (pySetAdd_nodup hn _) _)

theorem length_picks {α : Type} (l : List α) : (picks l).length = l.length := by
  induction l with
  | nil => rfl
  | cons x xs ih => simp [picks, ih]

theorem snd_length_of_mem_picks {α : Type} {l : List α} :
    ∀ p ∈ picks l, p.2.length + 1 = l.length := by
  induction l with
  | nil => intro p hp; cases hp
  | cons x xs ih =>
    intro p hp
    simp only [picks, List.mem_cons, List.mem_map] at hp
    rcases hp with h | ⟨q, hq, rfl⟩
    · subst h; simp
    · have := ih q hq
      simp only [List.length_cons]
      omega

theorem length_permsR {α : Type} : ∀ (r : Nat) (l : List α),
    (permsR l r).length = l.length.descFactorial r := by
  intro r
  induction r with
  | zero => intro l; simp [permsR]
  | succ r ih =>
    intro l
    cases l with
    | nil => simp [permsR, picks, Nat.zero_descFactorial_succ]
    | cons x xs =>
      have hmap : ((picks (x :: xs)).map
            (List.length ∘ (fun p : α × List α => (permsR p.2 r).map (p.1 :: ·)))) =
          List.replicate (x :: xs).length (xs.length.descFactorial r) := by
        rw [List.eq_replicate_iff]
        constructor
        · rw [List.length_map, length_picks]
        · intro b hb
          rcases List.mem_map.mp hb with ⟨p, hp, rfl⟩
          have hsnd := snd_length_of_mem_picks p hp
          simp only [Function.comp_apply, List.length_map, ih]
          simp only [List.length_cons] at hsnd
          have : p.2.length = xs.length := by omega
          rw [this]
      rw [permsR, List.length_flatMap, hmap]
      simp only [List.sum_replicate, smul_eq_mul, List.length_cons,
        Nat.succ_descFactorial_succ]

theorem length_allPerms (names : List Str) :
    (allPerms names).length =
      ((List.range names.length).map
        (fun r => Nat.descFactorial names.length (r + 1))).sum := by
  unfold allPerms
  rw [List.length_flatMap]
  simp [Function.comp_def, length_permsR]

set_option maxRecDepth 8000 in
/-- C4 counterexample: for the three tokens `["ab", "cd", "ef"]` the generator
produces 30 distinct candidates (the loop permutes every length 1..N, not only
the full token list), exceeding the claimed bound `N!*2 + N + N = 18`. -/
theorem generate_email_variants_claimed_bound_cex :
    (defaultScout.generate_email_variants tenvW [toS "ab", toS "cd", toS "ef"]
        (toS "x") false).toOption.map List.length = some 30 ∧
    ¬ (30 ≤ Nat.factorial 3 * 2 + 3 + 3) := by
  constructor
  · rfl
  · decide

/-- C4 (amended): the candidate count of `generate_email_variants` is bounded
by `2 * (Σ r in 1..N, N!/(N-r)!) + 2N` where `N` is the token count — two
additions per permutation of every length `1..N` plus two per token (the
claim's `N!*2 + N + N` counts only the full-length permutations; for `N = 2`
the amended bound is 12). -/
theorem generate_email_variants_descFactorial_bound (sc : Scout) (tenv : TransEnv)
    (names : List Str) (domain : Str) (norm : Bool) (out : List Str)
    (h : sc.generate_email_variants tenv names domain norm = .ok out) :
    out.length ≤
      2 * ((List.range names.length).map
            (fun r => Nat.descFactorial names.length (r + 1))).sum
      + 2 * names.length := by
  simp only [Scout.generate_email_variants] at h
  generalize hX : (if norm then names.map (normalize_name tenv) else names) = names2 at h
  have hlen : names2.length = names.length := by
    rw [← hX]; cases norm <;> simp
  cases heq : addNameInitials ((allPerms names2).foldl addPermJoins []) names2 with
  | error e => rw [heq] at h; exact absurd h (by simp)
  | ok vs =>
    rw [heq] at h
    injection h with h
    subst h
    rw [List.length_map]
    have h1 := addNameInitials_length_le heq
    have h2 := foldl_addPermJoins_length_le (allPerms names2) []
    have h3 := length_allPerms names2
    rw [hlen] at h1 h3
    simp only [List.length_nil] at h2
    omega

/-- Witness for `generate_email_variants_descFactorial_bound` at one token. -/
theorem generate_email_variants_descFactorial_bound_witness :
    (defaultScout.generate_email_variants tenvW [toS "ab"] (toS "x") false =
      .ok [toS "ab@x", toS "a@x"]) ∧
    [toS "ab@x", toS "a@x"].length ≤
      2 * ((List.range [toS "ab"].length).map
            (fun r => Nat.descFactorial [toS "ab"].length (r + 1))).sum
      + 2 * [toS "ab"].length :=
  ⟨by rfl,
   generate_email_variants_descFactorial_bound defaultScout tenvW [toS "ab"]
     (toS "x") false [toS "ab@x", toS "a@x"] (by rfl)⟩

/-- C5 counterexample: on a token list containing the empty string the
generator raises `IndexError` at `name[0]` (scout.py line 188) instead of
returning a candidate list. -/
theorem generate_email_variants_empty_token_raises :
    defaultScout.generate_email_variants tenvW [[]] (toS "d") true = .error () := rfl

/-- C5 (amended): `generate_email_variants` returns a candidate list rather
than raising exactly when every token — after normalization, when enabled — is
nonempty; an empty token makes `name[0]` raise `IndexError`. -/
theorem generate_email_variants_total_of_nonempty_tokens (sc : Scout) (tenv : TransEnv)
    (names : List Str) (domain : Str) (norm : Bool)
    (h : ∀ n ∈ (if norm then names.map (normalize_name tenv) else names), n ≠ ([] : Str)) :
    ∃ out, sc.generate_email_variants tenv names domain norm = .ok out := by
  simp only [Scout.generate_email_variants]
  generalize hX : (if norm then names.map (normalize_name tenv) else names) = names2
  rw [hX] at h
  have key : ∀ (ns : List Str), (∀ n ∈ ns, n ≠ ([] : Str)) → ∀ acc : List Str,
      ∃ vs, addNameInitials acc ns = .ok vs := by
    intro ns
    induction ns with
    | nil => intro _ acc; exact ⟨acc, rfl⟩
    | cons n ns ih =>
      intro hne acc
      cases hn : n with
      | nil => exact absurd rfl (hn ▸ hne n (List.mem_cons_self n ns))
      | cons c cs =>
        obtain ⟨vs, hvs⟩ := ih (fun m hm => hne m (List.mem_cons_of_mem n hm))
          (pySetAdd (pySetAdd acc (c :: cs)) [c])
        exact ⟨vs, by simp only [addNameInitials]; exact hvs⟩
  obtain ⟨vs, hvs⟩ := key names2 h ((allPerms names2).foldl addPermJoins [])
  rw [hvs]
  exact ⟨vs.map (fun v => v ++ '@' :: domain), rfl⟩

/-- Witness for `generate_email_variants_total_of_nonempty_tokens`. -/
theorem generate_email_variants_total_of_nonempty_tokens_witness :
    (∀ n ∈ (if true then [toS "ana"].map (normalize_name tenvW) else [toS "ana"]),
      n ≠ ([] : Str)) ∧
    ∃ out, defaultScout.generate_email_variants tenvW [toS "ana"] (toS "d") true = .ok out :=
  ⟨by decide,
   generate_email_variants_total_of_nonempty_tokens defaultScout tenvW [toS "ana"]
     (toS "d") true (by decide)⟩

/-- C8: every generated candidate is `local-part@domain` with the exact input
domain: custom prefixes map one-to-one, in input order, to `prefix@domain`;
every element of `generate_prefixes` (custom or common) and every element of a
successful `generate_email_variants` ends with `'@'` followed by the domain. -/
theorem generated_candidates_shape (sc : Scout) (domain : Str) :
    (∀ ps, sc.generate_prefixes domain (some ps) =
        ps.map (fun p => p ++ '@' :: domain)) ∧
    (∀ opt e, e ∈ sc.generate_prefixes domain opt → ∃ lp, e = lp ++ '@' :: domain) ∧
    (∀ tenv names norm out e,
      sc.generate_email_variants tenv names domain norm = .ok out →
      e ∈ out → ∃ lp, e = lp ++ '@' :: domain) := by
  refine ⟨fun ps => rfl, ?_, ?_⟩
  · intro opt e he
    unfold Scout.generate_prefixes at he
    rcases List.mem_map.mp he with ⟨p, _, rfl⟩
    exact ⟨p, rfl⟩
  · intro tenv names norm out e h he
    simp only [Scout.generate_email_variants] at h
    cases heq : addNameInitials
        ((allPerms (if norm then names.map (normalize_name tenv) else names)).foldl
          addPermJoins [])
        (if norm then names.map (normalize_name tenv) else names) with
    | error er => rw [heq] at h; exact absurd h (by simp)
    | ok vs =>
      rw [heq] at h
      injection h with h
      subst h
      rcases List.mem_map.mp he with ⟨v, _, rfl⟩
      exact ⟨v, rfl⟩

/-- Witness for `generated_candidates_shape`: the spec's own example
`generatePrefixes(D, ["a","b"]) == ["a@D", "b@D"]`, a membership instance for
the common-prefix list, and one for the variant generator. -/
theorem generated_candidates_shape_witness :
    defaultScout.generate_prefixes (toS "D") (some [toS "a", toS "b"]) =
      [toS "a@D", toS "b@D"] ∧
    (∃ lp, toS "info@D" = lp ++ '@' :: toS "D") ∧
    (∃ lp, toS "ab@D" = lp ++ '@' :: toS "D") :=
  ⟨by
      have h := (generated_candidates_shape defaultScout (toS "D")).1 [toS "a", toS "b"]
      simpa using h,
   (generated_candidates_shape defaultScout (toS "D")).2.1 none (toS "info@D") (by decide),
   (generated_candidates_shape defaultScout (toS "D")).2.2 tenvW [toS "ab"] false
     [toS "ab@D", toS "a@D"] (toS "ab@D") (by rfl) (by decide)⟩

/-- The variant set is built through Python-set insertion, so a successful
`generate_email_variants` returns a duplicate-free list. -/
theorem generate_email_variants_nodup {sc : Scout} {tenv : TransEnv} {names : List Str}
    {domain : Str} {norm : Bool} {out : List Str}
    (h : sc.generate_email_variants tenv names domain norm = .ok out) : out.Nodup := by
  simp only [Scout.generate_email_variants] at h
  generalize hX : (if norm then names.map (normalize_name tenv) else names) = names2 at h
  cases heq : addNameInitials ((allPerms names2).foldl addPermJoins []) names2 with
  | error e => rw [heq] at h; exact absurd h (by simp)
  | ok vs =>
    rw [heq] at h
    injection h with h
    subst h
    exact (addNameInitials_nodup heq (foldl_addPermJoins_nodup _ List.nodup_nil)).map
      (List.append_left_injective ('@' :: domain))

set_option maxRecDepth 16000 in
theorem common_prefixes_nodup : common_prefixes.Nodup := by decide

theorem generate_prefixes_common_nodup (sc : Scout) (domain : Str) :
    (sc.generate_prefixes domain Option.none).Nodup :=
  common_prefixes_nodup.map (List.append_left_injective ('@' :: domain))

/-!
## The single-domain pipeline (`find_valid_emails`, scout.py lines 193-272)
-/

/-- The `names` argument of `find_valid_emails`
(`Optional[Union[str, List[str], List[List[str]]]]`). -/
inductive NamesArg where
  | none
  | str (s : Str)
  | list (l : List Str)
  | nested (l : List (List Str))
deriving DecidableEq

/-- Python truthiness of the `names` argument (`if ... and names`,
`if ... and not names`): `None`, `""` and `[]` are falsy. -/
def NamesArg.truthy : NamesArg → Bool
  | .none => false
  | .str s => !s.isEmpty
  | .list l => !l.isEmpty
  | .nested l => !l.isEmpty

/-- Discriminates the list-of-lists shape
(`isinstance(names[0], list)`, scout.py line 235). -/
def NamesArg.isNested : NamesArg → Bool
  | .nested _ => true
  | _ => false

/-- The loop of scout.py lines 236-239: one `generate_email_variants` call per
inner name list, results `extend`ed in order; an exception in any call
propagates out of `find_valid_emails`. -/
def nestedVariants (tenv : TransEnv) (nz : Bool) (domain : Str) :
    List (List Str) → Except Unit (List Str)
  | [] => .ok []
  | nl :: rest =>
    match defaultScout.generate_email_variants tenv (split_list_data nl) domain nz with
    | .error e => .error e
    | .ok ev =>
      match nestedVariants tenv nz domain rest with
      | .error e => .error e
      | .ok evs => .ok (ev ++ evs)


/-- The `email_variants` value built by the branch on scout.py lines 232-242:
a plain string is first split at spaces, a flat list goes through
`split_list_data`, a list of lists contributes one `generate_email_variants`
block per inner list. -/
def Scout.email_variants_of (sc : Scout) (tenv : TransEnv) (domain : Str) :
    NamesArg → Except Unit (List Str)
  | .nested ls => nestedVariants tenv sc.normalize domain ls
  | .str t =>
    sc.generate_email_variants tenv (split_list_data (pySplitSpace t)) domain sc.normalize
  | .list l =>
    sc.generate_email_variants tenv (split_list_data l) domain sc.normalize
  | .none => .ok []

/-- The candidate list `all_emails = email_variants + generated_mails` built by
`find_valid_emails` before any scheduling (scout.py lines 227-247): variant
mode when variant checking is enabled and `names` is truthy, prefix mode when
`names` is falsy and prefix checking is enabled. -/
def Scout.candidates (sc : Scout) (tenv : TransEnv) (domain : Str)
    (names : NamesArg) : Except Unit (List Str) :=
  match
    (if sc.check_variants && names.truthy then sc.email_variants_of tenv domain names
     else .ok []) with
  | .error e => .error e
  | .ok email_variants =>
    .ok (email_variants ++
      (if sc.check_prefixes && !names.truthy then sc.generate_prefixes domain Option.none
       else []))

/-- A successful non-nested variant block is duplicate-free (it comes from one
Python-set construction). -/
theorem email_variants_of_nodup {sc : Scout} {tenv : TransEnv} {domain : Str}
    {names : NamesArg} {ev : List Str} (h : names.isNested = false)
    (hev : sc.email_variants_of tenv domain names = .ok ev) : ev.Nodup := by
  rcases names with _ | t | l | ls
  · injection hev with hev
    subst hev
    exact List.nodup_nil
  · have hev2 : sc.generate_email_variants tenv (split_list_data (pySplitSpace t))
        domain sc.normalize = .ok ev := hev
    exact generate_email_variants_nodup hev2
  · have hev2 : sc.generate_email_variants tenv (split_list_data l)
        domain sc.normalize = .ok ev := hev
    exact generate_email_variants_nodup hev2
  · simp [NamesArg.isNested] at h

/-- C3 counterexample: with a list-of-lists argument whose inner lists repeat a
name, the candidate list handed to the pool contains the same address twice
(the per-list variant blocks are only deduplicated internally, then
concatenated). -/
theorem candidates_nested_duplicate_cex :
    defaultScout.candidates tenvW (toS "d") (.nested [[toS "a"], [toS "a"]]) =
      .ok [toS "a@d", toS "a@d"] ∧
    ¬ ([toS "a@d", toS "a@d"] : List Str).Nodup := by
  exact ⟨rfl, by decide⟩

/-- C3 (amended): for every non-nested shape of the name input (absent, single
string, or flat list) the candidate list contains no duplicate address; only
the list-of-lists shape can repeat an address across inner lists. -/
theorem candidates_nodup_of_not_nested (sc : Scout) (tenv : TransEnv) (domain : Str)
    (names : NamesArg) (h : names.isNested = false) (out : List Str)
    (hok : sc.candidates tenv domain names = .ok out) : out.Nodup := by
  unfold Scout.candidates at hok
  by_cases hvt : (sc.check_variants && names.truthy) = true
  · rw [if_pos hvt] at hok
    have htr : names.truthy = true := by
      simp only [Bool.and_eq_true] at hvt
      exact hvt.2
    cases hev : sc.email_variants_of tenv domain names with
    | error e =>
      rw [hev] at hok
      exact absurd hok (by simp)
    | ok ev =>
      rw [hev] at hok
      have hok2 : (Except.ok (ev ++
          (if sc.check_prefixes && !names.truthy then sc.generate_prefixes domain Option.none
           else [])) : Except Unit (List Str)) = .ok out := hok
      rw [htr] at hok2
      simp only [Bool.not_true, Bool.and_false, Bool.false_eq_true, ite_false,
        List.append_nil] at hok2
      injection hok2 with hok2
      subst hok2
      exact email_variants_of_nodup h hev
  · rw [if_neg hvt] at hok
    have hok2 : (Except.ok
        (if sc.check_prefixes && !names.truthy then sc.generate_prefixes domain Option.none
         else []) : Except Unit (List Str)) = .ok out := hok
    by_cases hcp : (sc.check_prefixes && !names.truthy) = true
    · rw [if_pos hcp] at hok2
      injection hok2 with hok2
      subst hok2
      exact generate_prefixes_common_nodup sc domain
    · rw [if_neg hcp] at hok2
      injection hok2 with hok2
      subst hok2
      exact List.nodup_nil

/-- Witness for `candidates_nodup_of_not_nested` on a flat list. -/
theorem candidates_nodup_of_not_nested_witness :
    NamesArg.isNested (NamesArg.list [toS "bo"]) = false ∧
    ([toS "bo@d", toS "b@d"] : List Str).Nodup :=
  ⟨rfl,
   candidates_nodup_of_not_nested defaultScout tenvW (toS "d")
     (NamesArg.list [toS "bo"]) rfl [toS "bo@d", toS "b@d"] (by rfl)⟩

/-- The random probe address built by `check_email_catchall` (scout.py lines
86-87): ten oracle-drawn characters, the fixed suffix `"falan"`, `'@'`, the
domain. -/
def catchall_email (env : ProbeEnv) (domain : Str) : Str :=
  env.randChars ++ toS "falan" ++ '@' :: domain

/-- `Scout.check_email_catchall` (scout.py lines 73-88): probe the random
address with `check_smtp`. -/
def Scout.check_email_catchall (sc : Scout) (env : ProbeEnv) (domain : Str) :
    Except Unit Bool :=
  sc.check_smtp env (catchall_email env domain)

/-- The boolean outcome of the catch-all probe. -/
def check_email_catchall_val (env : ProbeEnv) (domain : Str) : Bool :=
  check_smtp_val env (catchall_email env domain)

/-- The random probe address always contains `'@'`, so `check_email_catchall`
never raises: it returns the probe boolean. -/
theorem check_email_catchall_eq_ok_val (sc : Scout) (env : ProbeEnv) (domain : Str) :
    sc.check_email_catchall env domain = .ok (check_email_catchall_val env domain) :=
  check_smtp_eq_ok_val sc env (by unfold catchall_email; simp)

/-- `Scout.find_valid_emails` (scout.py lines 193-272), with an explicit probe
trace.  The second component lists every address on which `check_smtp` is
invoked, in order: when catch-all checking is enabled the single random
pre-flight probe comes first (it never raises, see
`check_email_catchall_eq_ok_val`), and when that probe reports a catch-all the
function returns `[]` before generating or scheduling any candidate.
Otherwise the candidate list is generated (an exception propagates) and each
candidate is enqueued and probed exactly once by the worker pool;
`valid_emails` is given here in the canonical (enqueue) order — the relation
`Scout.FindValidExec` below captures every admissible completion order. -/
def Scout.find_valid_emails (sc : Scout) (env : ProbeEnv) (tenv : TransEnv)
    (domain : Str) (names : NamesArg) : Except Unit (List Str × List Str) :=
  if sc.check_catchall && check_email_catchall_val env domain then
    .ok ([], [catchall_email env domain])
  else
    match sc.candidates tenv domain names with
    | .error e => .error e
    | .ok all_emails =>
      .ok (all_emails.filter (check_smtp_val env),
        (if sc.check_catchall then [catchall_email env domain] else []) ++ all_emails)

/-- C1: when the catch-all pre-check is enabled and the probe reports a
catch-all, `find_valid_emails` returns the empty list and the probe trace is
exactly the one random catch-all address: `check_smtp` runs exactly once. -/
theorem find_valid_emails_catchall_short_circuit (sc : Scout) (env : ProbeEnv)
    (tenv : TransEnv) (domain : Str) (names : NamesArg)
    (h1 : sc.check_catchall = true)
    (h2 : check_email_catchall_val env domain = true) :
    sc.find_valid_emails env tenv domain names =
      .ok ([], [catchall_email env domain]) := by
  simp [Scout.find_valid_emails, h1, h2]

/-- Witness for `find_valid_emails_catchall_short_circuit` at the
always-accepting oracle (whose catch-all probe reports `true`). -/
theorem find_valid_emails_catchall_short_circuit_witness :
    defaultScout.check_catchall = true ∧
    check_email_catchall_val envAccept (toS "d") = true ∧
    defaultScout.find_valid_emails envAccept tenvW (toS "d") NamesArg.none =
      .ok ([], [catchall_email envAccept (toS "d")]) :=
  ⟨rfl, by decide,
   find_valid_emails_catchall_short_circuit defaultScout envAccept tenvW (toS "d")
     NamesArg.none rfl (by decide)⟩

/-!
## Concurrency model of the worker pool (scout.py lines 214-271)

The queue gives each enqueued candidate to exactly one worker (single
consumption per item); a worker appends the candidate to the shared result
list iff its probe succeeded; workers interleave arbitrarily, so the result
is the probe-filter of SOME completion order — an arbitrary permutation of the
enqueue order.  `q.join()` blocks forever when there are zero workers, so an
outcome exists only for a positive pool size.
-/

/-- An admissible outcome of the verification worker pool: with at least one
worker, the shared result list is the probe-filter of some completion order of
the enqueued candidates. -/
def PoolExec (num_worker_threads : Nat) (probe : Str → Bool)
    (cands : List Str) (result : List Str) : Prop :=
  1 ≤ num_worker_threads ∧
  ∃ order : List Str, order.Perm cands ∧ result = order.filter probe

/-- An admissible outcome of `find_valid_emails` under the concurrency model:
either the enabled catch-all pre-check short-circuits to `[]`, or the worker
pool processes the generated candidate list. -/
def Scout.FindValidExec (sc : Scout) (env : ProbeEnv) (tenv : TransEnv)
    (domain : Str) (names : NamesArg) (result : List Str) : Prop :=
  if sc.check_catchall && check_email_catchall_val env domain then
    result = []
  else
    ∃ cands, sc.candidates tenv domain names = .ok cands ∧
      PoolExec sc.num_threads (check_smtp_val env) cands result

/-- Candidate generation reads only the flag fields, never the pool size. -/
theorem candidates_pool_size_irrelevant (cv cp cc nz : Bool) (n1 n2 nb st : Nat)
    (tenv : TransEnv) (domain : Str) (names : NamesArg) :
    Scout.candidates ⟨cv, cp, cc, nz, n1, nb, st⟩ tenv domain names =
      Scout.candidates ⟨cv, cp, cc, nz, n2, nb, st⟩ tenv domain names := by
  rcases names with _ | t | l | ls <;> rfl

/-- C6: thread-count independence of the scheduler outcome.  Two admissible
executions of `find_valid_emails` for the same configuration, oracle, domain
and names, differing only in pool size, collect permutations of each other —
equal as multisets (hence as sets), with no lost or duplicated entries. -/
theorem find_valid_emails_pool_size_independent (cv cp cc nz : Bool)
    (n1 n2 nb st : Nat) (env : ProbeEnv) (tenv : TransEnv) (domain : Str)
    (names : NamesArg) (r1 r2 : List Str)
    (h1 : Scout.FindValidExec ⟨cv, cp, cc, nz, n1, nb, st⟩ env tenv domain names r1)
    (h2 : Scout.FindValidExec ⟨cv, cp, cc, nz, n2, nb, st⟩ env tenv domain names r2) :
    r1.Perm r2 := by
  unfold Scout.FindValidExec at h1 h2
  by_cases hcc : (cc && check_email_catchall_val env domain) = true
  · rw [if_pos hcc] at h1 h2
    rw [h1, h2]
  · rw [if_neg hcc] at h1 h2
    obtain ⟨c1, hc1, hp1⟩ := h1
    obtain ⟨c2, hc2, hp2⟩ := h2
    obtain ⟨-, o1, ho1, hr1⟩ := hp1
    obtain ⟨-, o2, ho2, hr2⟩ := hp2
    rw [candidates_pool_size_irrelevant cv cp cc nz n1 n2 nb st] at hc1
    rw [hc1] at hc2
    injection hc2 with hc2
    subst hc2
    subst hr1
    subst hr2
    exact (ho1.filter (check_smtp_val env)).trans
      (ho2.filter (check_smtp_val env)).symm

/-- Witness for `find_valid_emails_pool_size_independent`: pool sizes 1 and 10
on a no-MX oracle both admit the empty outcome, and the theorem makes them
permutations of each other. -/
theorem find_valid_emails_pool_size_independent_witness :
    Scout.FindValidExec ⟨true, false, true, true, 1, 1, 2⟩ envNoMx tenvW (toS "d")
      NamesArg.none [] ∧
    Scout.FindValidExec ⟨true, false, true, true, 10, 1, 2⟩ envNoMx tenvW (toS "d")
      NamesArg.none [] ∧
    ([] : List Str).Perm [] := by
  have hexec : ∀ n : Nat, 1 ≤ n →
      Scout.FindValidExec ⟨true, false, true, true, n, 1, 2⟩ envNoMx tenvW (toS "d")
        NamesArg.none [] := by
    intro n hn
    show ∃ cands,
      Scout.candidates ⟨true, false, true, true, n, 1, 2⟩ tenvW (toS "d") NamesArg.none =
        .ok cands ∧
      PoolExec n (check_smtp_val envNoMx) cands []
    exact ⟨[], rfl, hn, [], List.Perm.nil, rfl⟩
  refine ⟨hexec 1 (by decide), hexec 10 (by decide), ?_⟩
  exact find_valid_emails_pool_size_independent true false true true 1 10 1 2 envNoMx
    tenvW (toS "d") NamesArg.none [] [] (hexec 1 (by decide)) (hexec 10 (by decide))

/-!
## Bulk scheduler (`find_valid_emails_bulk`, scout.py lines 276-337)
-/

/-- One bulk request: a domain with its (possibly absent) name data.  The
Python job dicts compare structurally (`i not in email_data[n+1:]`), i.e. as
their `(domain, names)` content; `data.get("names", [])` defaults absent name
data. -/
structure BulkJob where
  domain : Str
  names : NamesArg
deriving DecidableEq

/-- One record of the bulk result list:
`{"domain": ..., "names": ..., "valid_emails": ...}` (scout.py line 307). -/
structure BulkResult where
  domain : Str
  names : NamesArg
  valid_emails : List Str
deriving DecidableEq

/-- The duplicate removal of scout.py line 291:
`[i for n, i in enumerate(email_data) if i not in email_data[n+1:]]` — keeps
the last occurrence of every job. -/
def dedupKeepLast : List BulkJob → List BulkJob
  | [] => []
  | j :: rest => if j ∈ rest then dedupKeepLast rest else j :: dedupKeepLast rest

/-- `Scout.find_valid_emails_bulk` (scout.py lines 276-337): deduplicate the
job list, then run the single-domain pipeline once per remaining job.  The
bulk worker catches every exception (scout.py lines 308-309): a job whose
pipeline raises is logged and skipped, appending no record.  Records are
listed in completion order; this model uses the dedup order, which is the
completion order of the default single bulk worker, and no claim below
depends on record order. -/
def Scout.find_valid_emails_bulk (sc : Scout) (env : ProbeEnv) (tenv : TransEnv)
    (email_data : List BulkJob) : List BulkResult :=
  (dedupKeepLast email_data).flatMap (fun data =>
    match sc.find_valid_emails env tenv data.domain data.names with
    | .ok p => [⟨data.domain, data.names, p.1⟩]
    | .error _ => [])

theorem mem_dedupKeepLast (jobs : List BulkJob) (j : BulkJob) :
    j ∈ dedupKeepLast jobs ↔ j ∈ jobs := by
  induction jobs with
  | nil => simp [dedupKeepLast]
  | cons k rest ih =>
    by_cases hk : k ∈ rest
    · simp only [dedupKeepLast]
      rw [if_pos hk, ih]
      constructor
      · exact fun h => List.mem_cons_of_mem k h
      · intro h
        rcases List.mem_cons.mp h with rfl | h1
        · exact hk
        · exact h1
    · simp only [dedupKeepLast]
      rw [if_neg hk]
      simp [ih]

theorem dedupKeepLast_nodup (jobs : List BulkJob) : (dedupKeepLast jobs).Nodup := by
  induction jobs with
  | nil => exact List.nodup_nil
  | cons k rest ih =>
    by_cases hk : k ∈ rest
    · simp only [dedupKeepLast]
      rw [if_pos hk]
      exact ih
    · simp only [dedupKeepLast]
      rw [if_neg hk]
      exact List.nodup_cons.mpr ⟨fun hmem => hk ((mem_dedupKeepLast rest k).mp hmem), ih⟩

/-- C7 counterexample: a single job whose name data contains an empty token
makes the pipeline raise (`name[0]` on the empty token, scout.py line 188);
the bulk worker catches the exception and appends nothing, so the result list
is empty although there is one distinct `(domain, names)` pair. -/
theorem find_valid_emails_bulk_drops_failing_job_cex :
    defaultScout.find_valid_emails_bulk envNoMx tenvW
        [⟨toS "d", NamesArg.list [[]]⟩] = [] ∧
    (dedupKeepLast [⟨toS "d", NamesArg.list [[]]⟩]).length = 1 :=
  ⟨rfl, rfl⟩

/-- The bulk fold produces exactly one record per job, in order, when every
job's pipeline returns without raising. -/
theorem bulk_flatMap_map_proj (sc : Scout) (env : ProbeEnv) (tenv : TransEnv) :
    ∀ l : List BulkJob,
      (∀ j ∈ l, ∃ p, sc.find_valid_emails env tenv j.domain j.names = .ok p) →
      ((l.flatMap (fun data =>
          match sc.find_valid_emails env tenv data.domain data.names with
          | .ok p => [(⟨data.domain, data.names, p.1⟩ : BulkResult)]
          | .error _ => [])).map (fun r => (r.domain, r.names)) =
        l.map (fun j => (j.domain, j.names))) := by
  intro l
  induction l with
  | nil => intro _; rfl
  | cons j rest ih =>
    intro h
    obtain ⟨p, hp⟩ := h j (List.mem_cons_self j rest)
    simp only [List.flatMap_cons, List.map_append, hp, List.map_cons, List.map_nil,
      List.nil_append, List.singleton_append]
    rw [ih (fun k hk => h k (List.mem_cons_of_mem j hk))]

/-- C7 (amended): `find_valid_emails_bulk` deduplicates jobs by structural
equality of the `(domain, names)` pair (keeping last occurrences: exactly the
distinct jobs of the input, in a duplicate-free list) and, provided every
unique job's pipeline completes without raising, returns exactly one record
per distinct pair; a job whose pipeline raises is skipped. -/
theorem find_valid_emails_bulk_one_result_per_distinct_job (sc : Scout)
    (env : ProbeEnv) (tenv : TransEnv) (email_data : List BulkJob)
    (hok : ∀ j ∈ dedupKeepLast email_data,
      ∃ p, sc.find_valid_emails env tenv j.domain j.names = .ok p) :
    ((sc.find_valid_emails_bulk env tenv email_data).map
        (fun r => (r.domain, r.names)) =
      (dedupKeepLast email_data).map (fun j => (j.domain, j.names))) ∧
    (dedupKeepLast email_data).Nodup ∧
    (∀ j, j ∈ dedupKeepLast email_data ↔ j ∈ email_data) :=
  ⟨bulk_flatMap_map_proj sc env tenv (dedupKeepLast email_data) hok,
   dedupKeepLast_nodup email_data,
   fun j => mem_dedupKeepLast email_data j⟩

/-- Witness for `find_valid_emails_bulk_one_result_per_distinct_job`: two
structurally identical jobs yield a single record. -/
theorem find_valid_emails_bulk_one_result_per_distinct_job_witness :
    ((Scout.find_valid_emails_bulk ⟨true, false, true, true, 5, 1, 2⟩ envNoMx tenvW
        [⟨toS "d", NamesArg.none⟩, ⟨toS "d", NamesArg.none⟩]).map
        (fun r => (r.domain, r.names)) =
      (dedupKeepLast [⟨toS "d", NamesArg.none⟩, ⟨toS "d", NamesArg.none⟩]).map
        (fun j => (j.domain, j.names))) ∧
    (dedupKeepLast [⟨toS "d", NamesArg.none⟩, ⟨toS "d", NamesArg.none⟩]).Nodup ∧
    (∀ j, j ∈ dedupKeepLast [⟨toS "d", NamesArg.none⟩, ⟨toS "d", NamesArg.none⟩] ↔
      j ∈ [⟨toS "d", NamesArg.none⟩, ⟨toS "d", NamesArg.none⟩]) :=
  find_valid_emails_bulk_one_result_per_distinct_job
    ⟨true, false, true, true, 5, 1, 2⟩ envNoMx tenvW
    [⟨toS "d", NamesArg.none⟩, ⟨toS "d", NamesArg.none⟩]
    (by
      intro j hj
      have hd : dedupKeepLast [⟨toS "d", NamesArg.none⟩, ⟨toS "d", NamesArg.none⟩] =
          [⟨toS "d", NamesArg.none⟩] := rfl
      rw [hd] at hj
      rcases List.mem_singleton.mp hj with rfl
      exact ⟨([], [catchall_email envNoMx (toS "d")]), rfl⟩)
